import Mathlib

set_option maxRecDepth 100000

/-!
Verification of the LinkedinScraping candidate scoring and resolution engine.

This file shallow-embeds the core of the repository:
  * `utils/name_match.py` — name normalization (`normalize_name`), name
    similarity (`name_similarity`, built on rapidfuzz `fuzz.token_sort_ratio`)
    and exact-name comparison (`is_exact_name`);
  * `matcher.py` — the face-metric populator (`compute_missing_face_metrics`),
    best-candidate selection (`pick_best_candidate`), the name classifier
    (`classify_name_status`) and the orchestrator (`run_matcher`).

Python strings are `String` / `List Char`, Python `None` is `Option.none`,
Python floats are `ℚ` (all float values arising here are small rationals whose
comparisons are exact in double precision), and exceptions are `Except Unit`.

Third-party library calls are modelled explicitly:
  * `unidecode` is modelled as identity on ASCII plus a table of common
    accented Latin letters (unknown characters map to the empty string, as in
    the library's default behaviour);
  * `rapidfuzz.fuzz.token_sort_ratio` is modelled by its documented semantics:
    split both strings on whitespace, sort the tokens, join with single
    spaces, and return the normalized Indel similarity scaled to 0..100,
    i.e. `200 * lcs(x, y) / (|x| + |y|)`, with the rapidfuzz convention that
    two empty strings have similarity 100.
-/

/-! ## Python string primitives -/

/-- Python whitespace for `str.split()` / `str.strip()` / regex `\s`
(the strings reaching these operations in this code are ASCII). -/
def isPySpace (c : Char) : Bool :=
  c == ' ' || c == '\t' || c == '\n' || c == '\r' || c == '\x0b' || c == '\x0c'

/-- Python `str.strip()` on a character list. -/
def pyStripChars (cs : List Char) : List Char :=
  ((cs.dropWhile isPySpace).reverse.dropWhile isPySpace).reverse

/-- Python `str.strip()`. -/
def pyStrip (s : String) : String := ⟨pyStripChars s.data⟩

/-- Python truthiness of an optional string (`None` and `""` are falsy). -/
def truthyS : Option String → Bool
  | none => false
  | some s => !(s == "")

/-- Python `a or b` on optional strings. -/
def pyOr (a b : Option String) : Option String :=
  if truthyS a then a else b

/-- The word-splitting step of Python `s.split()`: `foldr` builds the raw run
structure (a space opens a new word slot, any other character is glued onto
the current first word). -/
def splitStep (c : Char) (acc : List (List Char)) : List (List Char) :=
  if isPySpace c then [] :: acc
  else
    match acc with
    | [] => [[c]]
    | w :: ws => (c :: w) :: ws

/-- Python `s.split()` (split on whitespace runs, no empty tokens). -/
def pySplit (cs : List Char) : List (List Char) :=
  (cs.foldr splitStep []).filter (fun w => !w.isEmpty)

/-- `" ".join(words)`. -/
def joinSpace : List (List Char) → List Char
  | [] => []
  | [w] => w
  | w :: ws => w ++ ' ' :: joinSpace ws

/-! ## `normalize_name` (src/utils/name_match.py, lines 6-13) -/

/-- Transliteration table of the `unidecode` library for the accented Latin
letters this model covers (lowercase and uppercase forms). -/
def unidecodeTable : List (Char × String) :=
  [('á', "a"), ('à', "a"), ('â', "a"), ('ä', "a"), ('å', "a"), ('ã', "a"),
   ('é', "e"), ('è', "e"), ('ê', "e"), ('ë', "e"),
   ('í', "i"), ('ì', "i"), ('î', "i"), ('ï', "i"),
   ('ó', "o"), ('ò', "o"), ('ô', "o"), ('ö', "o"), ('õ', "o"), ('ø', "o"),
   ('ú', "u"), ('ù', "u"), ('û', "u"), ('ü', "u"),
   ('ç', "c"), ('ñ', "n"), ('ß', "ss"),
   ('Á', "A"), ('À', "A"), ('Â', "A"), ('Ä', "A"), ('Å', "A"), ('Ã', "A"),
   ('É', "E"), ('È', "E"), ('Ê', "E"), ('Ë', "E"),
   ('Í', "I"), ('Ì', "I"), ('Î', "I"), ('Ï', "I"),
   ('Ó', "O"), ('Ò', "O"), ('Ô', "O"), ('Ö', "O"), ('Õ', "O"), ('Ø', "O"),
   ('Ú', "U"), ('Ù', "U"), ('Û', "U"), ('Ü', "U"),
   ('Ç', "C"), ('Ñ', "N")]

/-- Model of `unidecode.unidecode` on one character: ASCII passes through,
tabulated accented letters transliterate, anything else maps to the empty
string (the library's default for untranslatable characters). -/
def unidecodeChar (c : Char) : String :=
  if c.toNat < 128 then String.singleton c
  else ((unidecodeTable.lookup c).getD "")

/-- Model of `unidecode.unidecode` on a character list. -/
def translitChars (cs : List Char) : List Char :=
  (cs.map (fun c => (unidecodeChar c).data)).flatten

/-- Python `str.lower()` on one character (ASCII `A`-`Z`, code points 65-90,
shift to `a`-`z`; `unidecode` output, the only input this is applied to, is
ASCII). -/
def pyLowerChar (c : Char) : Char :=
  if 65 ≤ c.toNat && c.toNat ≤ 90 then Char.ofNat (c.toNat + 32) else c

/-- The character class kept by the regex `[^a-z0-9\s'-]+` in
`normalize_name`: lowercase letters (code points 97-122), digits (48-57),
whitespace, apostrophe (39), hyphen. -/
def keptChar (c : Char) : Bool :=
  (97 ≤ c.toNat && c.toNat ≤ 122) || (48 ≤ c.toNat && c.toNat ≤ 57) ||
    isPySpace c || c == Char.ofNat 39 || c == '-'

/-- `re.sub(r"[^a-z0-9\s'-]+", " ", s)`: each maximal run of characters
outside the kept class is replaced by a single space.  The flag records
whether we are inside such a run. -/
def subBadRuns : Bool → List Char → List Char
  | _, [] => []
  | inBad, c :: cs =>
    if keptChar c then c :: subBadRuns false cs
    else if inBad then subBadRuns true cs
    else ' ' :: subBadRuns true cs

/-- `normalize_name` from `src/utils/name_match.py`:
`unidecode(s or "").lower()`, then the regex substitution, then
`" ".join(s.split())`. -/
def normalize_name (s : Option String) : String :=
  ⟨joinSpace (pySplit (subBadRuns false
      ((translitChars (s.getD "").data).map pyLowerChar)))⟩

/-! ## rapidfuzz `fuzz.token_sort_ratio` model -/

/-- Longest common subsequence with explicit fuel (structural recursion so
that the kernel can evaluate it; `lcsChars` below supplies enough fuel). -/
def lcsF : Nat → List Char → List Char → Nat
  | 0, _, _ => 0
  | _ + 1, [], _ => 0
  | _ + 1, _ :: _, [] => 0
  | f + 1, a :: as, b :: bs =>
    if a = b then lcsF f as bs + 1
    else max (lcsF f (a :: as) bs) (lcsF f as (b :: bs))

/-- Length of the longest common subsequence of two character lists. -/
def lcsChars (a b : List Char) : Nat := lcsF (a.length + b.length) a b

/-- rapidfuzz `fuzz.ratio` (normalized Indel similarity scaled to 0..100):
`100 * (1 - indel_distance / (|a| + |b|)) = 200 * lcs / (|a| + |b|)`, and
100 when both strings are empty (rapidfuzz convention). -/
def indelScore (a b : List Char) : ℚ :=
  if a.length + b.length = 0 then 100
  else mkRat (200 * lcsChars a b) (a.length + b.length)

/-- Python string `<` (lexicographic by code point). -/
def lexLt : List Char → List Char → Bool
  | [], [] => false
  | [], _ :: _ => true
  | _ :: _, [] => false
  | a :: as, b :: bs => if a < b then true else if b < a then false else lexLt as bs

/-- Insertion step of Python `sorted` on token lists (stable, ascending). -/
def insertTok (x : List Char) : List (List Char) → List (List Char)
  | [] => [x]
  | y :: ys => if lexLt y x then y :: insertTok x ys else x :: y :: ys

/-- Python `sorted` on token lists. -/
def sortToks (ws : List (List Char)) : List (List Char) :=
  ws.foldr insertTok []

/-- rapidfuzz `fuzz.token_sort_ratio`: `" ".join(sorted(s.split()))` on both
sides, then `fuzz.ratio`. -/
def token_sort_score (a b : String) : ℚ :=
  indelScore (joinSpace (sortToks (pySplit a.data)))
    (joinSpace (sortToks (pySplit b.data)))

/-! ## `name_similarity` and `is_exact_name` (src/utils/name_match.py) -/

/-- `name_similarity` from `src/utils/name_match.py`: normalize both names,
then `float(fuzz.token_sort_ratio(a, b))`. -/
def name_similarity (a b : String) : ℚ :=
  token_sort_score (normalize_name (some a)) (normalize_name (some b))

/-- `is_exact_name` from `src/utils/name_match.py`: equality of normalized
forms. -/
def is_exact_name (a b : String) : Bool :=
  normalize_name (some a) == normalize_name (some b)

/-! ## Data model of the person record (matcher.py + utils/json_store) -/

/-- A value stored under the `sigmoid` key of a candidate's face metrics:
either a number or a raw string (anything non-numeric a store could hold). -/
inductive SimVal where
  | num (q : ℚ)
  | str (s : String)
deriving DecidableEq

/-- A candidate's `face` mapping: an optional numeric-or-string `sigmoid`
similarity field and an optional `error` field. -/
structure FaceVal where
  sigmoid : Option SimVal
  error : Option String
deriving DecidableEq

/-- One candidate entry of a person record (`candidates[i]` in the JSON). -/
structure Candidate where
  profile_url : Option String
  name : Option String
  photo_path : Option String
  image_file : Option String
  face : Option FaceVal
deriving DecidableEq

/-- A person record as loaded by `load_person` (`query_name`,
`source_images`, `candidates`; a missing or null list field and `[]` behave
identically under the code's `or []`, so lists are used directly). -/
structure Person where
  query_name : Option String
  source_images : List String
  candidates : List Candidate
deriving DecidableEq

/-- The external face scorer `compare_faces(src, cand)`: returns a metrics
mapping or raises. -/
def Scorer := String → String → Except Unit FaceVal

/-- Modelled from the spec: the "no image available" sentinel value
`NO_IMAGE_TOKEN` exported by `utils.json_store` (the module is not among the
provided sources; the concrete token text is opaque, only equality with it
matters). -/
def NO_IMAGE_TOKEN : String := "no_image_available"

/-- The error marker stored on a scoring failure:
`{"error": "no_face_metrics"}`. -/
def NO_FACE_ERR : FaceVal := ⟨none, some "no_face_metrics"⟩

/-- Modelled from the spec: `candidate_has_face(path, url)` of
`utils.json_store` — re-reads the record and reports whether the candidate
with the given profile URL already has a `face` field (§6 `has_face`). -/
def candidate_has_face (p : Person) (url : String) : Bool :=
  p.candidates.any (fun c => c.profile_url == some url && c.face.isSome)

/-- Modelled from the spec: `set_candidate_face(path, url, fm)` of
`utils.json_store` — persists `fm` as the `face` field of the candidate with
the given profile URL (§6 `save_candidate_face`). -/
def set_candidate_face (p : Person) (url : String) (fm : FaceVal) : Person :=
  { p with
    candidates := p.candidates.map (fun c =>
      if c.profile_url == some url then { c with face := some fm } else c) }

/-- The sentinel test of `compute_missing_face_metrics`:
`(c.get("photo_path") or "").strip() == NO_IMAGE_TOKEN`. -/
def isSentinel (c : Candidate) : Bool :=
  pyStrip ((pyOr c.photo_path (some "")).getD "") == NO_IMAGE_TOKEN

/-! ## Candidate Face-Metric Populator
(`compute_missing_face_metrics`, src/matcher.py lines 19-47)

The run is instrumented with the list of candidates actually passed to the
external scorer, so that "the scorer is never invoked for candidate c" is
expressible as `c ∉ calls`. -/

/-- One iteration of the loop of `compute_missing_face_metrics` for the
candidate `c` (from the list loaded at entry), acting on the persisted state
and the scorer-invocation log. -/
def popStep (scorer : Scorer) (src : String) (st : Person × List Candidate)
    (c : Candidate) : Person × List Candidate :=
  if isSentinel c then st
  else
    if truthyS (pyOr c.photo_path c.image_file) && truthyS c.profile_url then
      if candidate_has_face st.1 (c.profile_url.getD "") then st
      else
        match scorer src ((pyOr c.photo_path c.image_file).getD "") with
        | .ok fm =>
            (set_candidate_face st.1 (c.profile_url.getD "") fm, st.2 ++ [c])
        | .error _ =>
            (set_candidate_face st.1 (c.profile_url.getD "") NO_FACE_ERR,
              st.2 ++ [c])
    else st

/-- `compute_missing_face_metrics(person_json, src_image)` from
`src/matcher.py`: for each candidate of the loaded record, in stored order,
skip sentinels, entries without a usable image or URL, and entries that
already have face metrics; otherwise score and persist (or persist the error
marker on failure).  Returns the persisted record and the invocation log. -/
def compute_missing_face_metrics (scorer : Scorer) (src : String)
    (p : Person) : Person × List Candidate :=
  p.candidates.foldl (popStep scorer src) (p, [])

/-- The face value stored for a scored candidate, as a function of the
scorer's outcome (success metrics, or the error marker on a raised failure). -/
def fmOfResult : Except Unit FaceVal → FaceVal
  | .ok fm => fm
  | .error _ => NO_FACE_ERR

/-! ## Best-candidate selection (`pick_best_candidate`, matcher.py 52-58) -/

/-- The usable similarity score of a candidate for selection: present exactly
when the candidate has a profile URL and its `face` metrics carry a numeric
`sigmoid` and no error (spec §4.3: error entries excluded; §3: `profile_url`
required for selection). -/
def usableScore (c : Candidate) : Option ℚ :=
  if truthyS c.profile_url then
    match c.face with
    | some f =>
      match f.error, f.sigmoid with
      | none, some (.num q) => some q
      | _, _ => none
    | none => none
  else none

/-- Modelled from the spec: `select_best_candidate` of `utils.json_store` —
among candidates with a usable numeric score, the one with the maximum score,
first-encountered winning exact ties (§4.3). -/
def select_best_candidate (p : Person) : Option Candidate :=
  (p.candidates.foldl (fun best c =>
    match usableScore c with
    | none => best
    | some q =>
      match best with
      | none => some (c, q)
      | some b => if q > b.2 then some (c, q) else best) none).map (·.1)

/-- `pick_best_candidate` from `src/matcher.py`: reload the record and select
the best candidate by face score. -/
def pick_best_candidate (p : Person) : Option Candidate :=
  select_best_candidate p

/-! ## Match classifier (`classify_name_status`, src/matcher.py 63-70) -/

/-- `FUZZY_MIN = 92` from `src/matcher.py`. -/
def FUZZY_MIN : ℚ := 92

/-- Python `x or 0` for a float `x`. -/
def pyOrZero (x : ℚ) : ℚ := if x = 0 then 0 else x

/-- `classify_name_status(query_name, best_name, fuzzy_min)` from
`src/matcher.py`: exact match → `"matched"`; else similarity at least the
threshold → `"Probable Match (Fuzzy Name)"`; else `"no_match"`. -/
def classify_name_status (query_name best_name : String) (fuzzy_min : ℚ) :
    String :=
  if is_exact_name query_name best_name then "matched"
  else
    if pyOrZero (name_similarity query_name best_name) ≥ fuzzy_min then
      "Probable Match (Fuzzy Name)"
    else "no_match"

/-! ## Orchestrator (`run_matcher`, src/matcher.py 75-120) -/

/-- The result payload of `run_matcher`; it has exactly the four fields of
the emitted mapping.  `name` and `linkedin_url` may hold Python `None`. -/
structure MatchResult where
  name : Option String
  linkedin_url : Option String
  image_similarity : ℚ
  match_status : String
deriving DecidableEq

/-- A partial model of Python `float(str)` sufficient for this code: an
optional sign followed by a plain decimal form (`digits`, `digits.digits`,
`digits.`, `.digits`), after stripping whitespace; anything else (the inputs
Python would also reject) parses to `none`, i.e. raises `ValueError`. -/
def parseFloat (s : String) : Option ℚ :=
  let t := pyStripChars s.data
  let t := match t with
    | '+' :: r => r
    | '-' :: r => '-' :: r
    | r => r
  let neg := match t with | '-' :: _ => true | _ => false
  let t := match t with | '-' :: r => r | r => r
  let intPart := t.takeWhile (fun c => '0' ≤ c && c ≤ '9')
  let rest := t.drop intPart.length
  let val : Option ℚ :=
    match rest with
    | [] =>
      if intPart.isEmpty then none
      else some (mkRat (intPart.foldl (fun n c => 10 * n + (c.toNat - 48)) 0) 1)
    | '.' :: frac =>
      if frac.all (fun c => '0' ≤ c && c ≤ '9') &&
          !(intPart.isEmpty && frac.isEmpty) then
        some (mkRat
          ((intPart ++ frac).foldl (fun n c => 10 * n + (c.toNat - 48)) 0)
          (10 ^ frac.length))
      else none
    | _ => none
  match val with
  | none => none
  | some q => some (if neg then -q else q)

/-- `float((best.get("face") or {}).get("sigmoid") or 0.0)` from
`run_matcher`: a missing or falsy stored score defaults to `0.0`; a truthy
non-numeric string makes `float` raise. -/
def pyFloatSig : Option SimVal → Except Unit ℚ
  | none => .ok 0
  | some (.num q) => .ok q
  | some (.str s) =>
    if s == "" then .ok 0
    else
      match parseFloat s with
      | some q => .ok q
      | none => .error ()

/-- Python `round(x, 4)` on the exact rational value: round half up to four
decimal digits (`round x = ⌊x + 1/2⌋` on `x * 10^4`, computed on numerator
and denominator; tie direction and binary-float artifacts are not exercised
by any statement below). -/
def round4 (q : ℚ) : ℚ :=
  mkRat (Int.fdiv (2 * (q.num * 10000) + (q.den : Int)) (2 * (q.den : Int)))
    10000

/-- Lines 108-120 of `run_matcher`: extract the query name, best name and
sigmoid score from the winning candidate, classify, and build the result
mapping.  An unparsable stored score propagates `float`'s exception. -/
def finalizeResult (data : Person) (best : Candidate) :
    Except Unit MatchResult :=
  match pyFloatSig ((best.face.getD ⟨none, none⟩).sigmoid) with
  | .error e => .error e
  | .ok sig =>
    .ok
      { name := some ((data.query_name).getD "")
        linkedin_url := best.profile_url
        image_similarity := round4 sig
        match_status :=
          classify_name_status ((data.query_name).getD "")
            ((best.name).getD "") FUZZY_MIN }

deriving instance DecidableEq for Except

/-- `run_matcher(person_json)` from `src/matcher.py`, instrumented with the
final persisted record and the scorer-invocation log.  Short-circuits to a
`no_match` payload when there are no source images or no candidates; then
populates face metrics, picks the best candidate, and finalizes. -/
def run_matcher (scorer : Scorer) (p : Person) :
    Except Unit MatchResult × Person × List Candidate :=
  match p.source_images, p.candidates with
  | [], _ =>
    (.ok ⟨p.query_name, some "no_match", 0, "no_match"⟩, p, [])
  | _ :: _, [] =>
    (.ok ⟨p.query_name, some "no_match", 0, "no_match"⟩, p, [])
  | src :: _, _ :: _ =>
    let r := compute_missing_face_metrics scorer src p
    match pick_best_candidate r.1 with
    | none => (.ok ⟨p.query_name, some "no_match", 0, "no_match"⟩, r.1, r.2)
    | some best => (finalizeResult p best, r.1, r.2)

/-- The spec's §3 invariant that `profile_url` is a unique key among a
record's candidates (two entries never share a URL; entries without a URL are
unconstrained). -/
def urlsOK : List Candidate → Bool
  | [] => true
  | c :: cs =>
    (match c.profile_url with
     | none => true
     | some u => cs.all (fun d => !(d.profile_url == some u))) && urlsOK cs

/-- A candidate with its `face` field cleared — the Populator changes
nothing but `face`, so these "skeletons" are invariant under it. -/
def dropFace (c : Candidate) : Candidate := { c with face := none }

/-! ## Claim-derived comparison definitions -/

/-- The cleanup step as the C7 claim words it: *remove* all characters
except letters, digits, whitespace, apostrophe and hyphen (instead of
replacing each run with a space as the code's `re.sub` does), then collapse
whitespace. -/
def normalize_claimed (s : Option String) : String :=
  ⟨joinSpace (pySplit
      (((translitChars (s.getD "").data).map pyLowerChar).filter keptChar))⟩

/-- The amended description of `normalize_name`'s cleanup: each character
outside the kept class becomes a space (per-character replacement — for runs
this differs from `re.sub` only by extra spaces, which the final whitespace
collapse removes), then whitespace is collapsed. -/
def normalize_spaced (s : Option String) : String :=
  ⟨joinSpace (pySplit
      (((translitChars (s.getD "").data).map pyLowerChar).map
        (fun c => if keptChar c then c else ' ')))⟩

/-- Scorer of the C2 witness (always succeeds with sigmoid 0.75). -/
def wScorerC2 : Scorer := fun _ _ => .ok ⟨some (.num (mkRat 3 4)), none⟩

/-- Record of the C2 witness: an already-scored candidate, a sentinel
candidate, and a fresh candidate. -/
def wPersonC2 : Person :=
  ⟨some "q", ["s.jpg"],
    [⟨some "u0", some "n0", some "p0.jpg", none,
        some ⟨some (.num (mkRat 1 2)), none⟩⟩,
      ⟨some "u1", some "n1", some NO_IMAGE_TOKEN, none, none⟩,
      ⟨some "u2", some "n2", some "p2.jpg", none, none⟩]⟩

/-- Record of the C3 witness: one eligible, not yet scored candidate. -/
def wPersonC3 : Person :=
  ⟨some "q", ["s"], [⟨some "u", some "n", some "p.jpg", none, none⟩]⟩

/-- The record of the C5 counterexample: one candidate, already scored
(face sigmoid 0.9), whose name is fuzzily (not exactly) similar to the query
name with similarity exactly 92. -/
def cexPersonC5 : Person :=
  ⟨some ⟨List.replicate 23 'a'⟩, ["src.jpg"],
    [⟨some "url1", some ⟨List.replicate 23 'a' ++ List.replicate 4 'z'⟩,
      some "img1.jpg", none, some ⟨some (.num (mkRat 9 10)), none⟩⟩]⟩

/-! ## Small computation lemmas -/

theorem pyOrZero_eq (x : ℚ) : pyOrZero x = x := by
  unfold pyOrZero
  split
  next h => exact h.symm
  next => rfl

theorem round4_zero : round4 0 = 0 := by decide

/-! ## C1: classifier evaluation order and threshold boundary -/

/-- C1: `classify_name_status` evaluates exactly in order: an exact
normalized match returns `matched`; otherwise a similarity at least the
threshold returns the fuzzy verdict; otherwise `no_match`.  With the default
threshold `FUZZY_MIN = 92` and no exact match, similarity exactly 92 gets the
fuzzy verdict and similarity 91 gets `no_match`. -/
theorem classify_name_status_order (q c : String) (th : ℚ) :
    (is_exact_name q c = true → classify_name_status q c th = "matched") ∧
    (is_exact_name q c = false → th ≤ name_similarity q c →
      classify_name_status q c th = "Probable Match (Fuzzy Name)") ∧
    (is_exact_name q c = false → name_similarity q c < th →
      classify_name_status q c th = "no_match") ∧
    (is_exact_name q c = false → name_similarity q c = 92 →
      classify_name_status q c FUZZY_MIN = "Probable Match (Fuzzy Name)") ∧
    (is_exact_name q c = false → name_similarity q c = 91 →
      classify_name_status q c FUZZY_MIN = "no_match") := by
  refine ⟨?_, ?_, ?_, ?_, ?_⟩ <;> intro h
  · simp [classify_name_status, h]
  · intro hsim
    simp only [classify_name_status, h, Bool.false_eq_true, if_false,
      pyOrZero_eq, ge_iff_le]
    exact if_pos hsim
  · intro hsim
    simp only [classify_name_status, h, Bool.false_eq_true, if_false,
      pyOrZero_eq, ge_iff_le]
    exact if_neg (not_le.mpr hsim)
  · intro hsim
    simp only [classify_name_status, h, Bool.false_eq_true, if_false,
      pyOrZero_eq, ge_iff_le, hsim]
    norm_num [FUZZY_MIN]
  · intro hsim
    simp only [classify_name_status, h, Bool.false_eq_true, if_false,
      pyOrZero_eq, ge_iff_le, hsim]
    norm_num [FUZZY_MIN]

/-- Witness for C1: a concrete non-exact pair with similarity exactly 92 is
classified with the fuzzy verdict, and one with similarity exactly 91 as
`no_match`, at the default threshold. -/
theorem classify_name_status_order_witness :
    classify_name_status ⟨List.replicate 23 'a' ++ List.replicate 4 'z'⟩
        ⟨List.replicate 23 'a'⟩ FUZZY_MIN = "Probable Match (Fuzzy Name)" ∧
      classify_name_status ⟨List.replicate 91 'a' ++ List.replicate 18 'z'⟩
        ⟨List.replicate 91 'a'⟩ FUZZY_MIN = "no_match" :=
  ⟨(classify_name_status_order ⟨List.replicate 23 'a' ++ List.replicate 4 'z'⟩
      ⟨List.replicate 23 'a'⟩ FUZZY_MIN).2.2.2.1 (by decide) (by decide),
    (classify_name_status_order ⟨List.replicate 91 'a' ++ List.replicate 18 'z'⟩
      ⟨List.replicate 91 'a'⟩ FUZZY_MIN).2.2.2.2 (by decide) (by decide)⟩

/-! ## C4: orchestrator short-circuit on empty inputs -/

/-- C4: with no source images or no candidates, `run_matcher` returns the
`no_match` payload with zero similarity, leaves the record untouched, and
never invokes the Populator loop or the face scorer (empty invocation log). -/
theorem run_matcher_short_circuit (scorer : Scorer) (p : Person)
    (h : p.source_images = [] ∨ p.candidates = []) :
    run_matcher scorer p =
      (.ok ⟨p.query_name, some "no_match", 0, "no_match"⟩, p, []) := by
  obtain ⟨q, si, cs⟩ := p
  rcases h with h | h
  · simp only at h
    subst h
    rfl
  · simp only at h
    subst h
    cases si <;> rfl

/-- Witness for C4 at a concrete record with a source image but no
candidates. -/
theorem run_matcher_short_circuit_witness :
    run_matcher (fun _ _ => .error ()) ⟨some "q", ["s.jpg"], []⟩ =
      (.ok ⟨some "q", some "no_match", 0, "no_match"⟩,
        ⟨some "q", ["s.jpg"], []⟩, []) :=
  run_matcher_short_circuit (fun _ _ => .error ()) ⟨some "q", ["s.jpg"], []⟩
    (Or.inr rfl)

/-! ## C8: defaulting of a missing winning score -/

/-- C8 (amended): when the winning candidate's face metrics lack a `sigmoid`
score (no `face` at all, or no `sigmoid` key), the orchestrator's
finalization step uses `0.0` as `image_similarity` and produces a result.
(The claim's further assertion that an unparsable stored score also defaults
to `0.0` fails: `float` raises — see the counterexample.) -/
theorem finalize_missing_score_defaults (data : Person) (best : Candidate)
    (h : (best.face.getD ⟨none, none⟩).sigmoid = none) :
    finalizeResult data best =
      .ok ⟨some ((data.query_name).getD ""), best.profile_url, 0,
        classify_name_status ((data.query_name).getD "")
          ((best.name).getD "") FUZZY_MIN⟩ := by
  unfold finalizeResult
  rw [h]
  show Except.ok _ = _
  rw [round4_zero]

/-- Witness for C8's amended theorem at a candidate whose face metrics hold
only an error marker (no score). -/
theorem finalize_missing_score_defaults_witness :
    finalizeResult ⟨some "jane", ["s"], []⟩
        ⟨some "u", some "bob", some "i", none, some NO_FACE_ERR⟩ =
      .ok ⟨some "jane", some "u", 0,
        classify_name_status "jane" "bob" FUZZY_MIN⟩ :=
  finalize_missing_score_defaults ⟨some "jane", ["s"], []⟩
    ⟨some "u", some "bob", some "i", none, some NO_FACE_ERR⟩ rfl

/-- Counterexample for C8 as stated: a winning candidate whose stored score
is the unparsable string `"n/a"` makes the finalization step raise (Python
`float("n/a")` raises `ValueError`) instead of defaulting to `0.0`. -/
theorem finalize_unparsable_raises_cex :
    finalizeResult ⟨some "q", ["s"], []⟩
        ⟨some "u", some "n", some "i", none,
          some ⟨some (.str "n/a"), none⟩⟩ =
      .error () := by decide

/-! ## Longest-common-subsequence lemmas -/

theorem lcsF_fuel_eq :
    ∀ (f g : Nat) (a b : List Char), a.length + b.length ≤ f →
      a.length + b.length ≤ g → lcsF f a b = lcsF g a b := by
  intro f
  induction f with
  | zero =>
    intro g a b hf _
    have ha : a = [] := List.length_eq_zero.mp (by omega)
    have hb : b = [] := List.length_eq_zero.mp (by omega)
    subst ha; subst hb
    cases g <;> rfl
  | succ f ih =>
    intro g a b hf hg
    cases a with
    | nil =>
      cases g with
      | zero =>
        have hb : b = [] := List.length_eq_zero.mp (by simpa using hg)
        subst hb; rfl
      | succ g => cases b <;> rfl
    | cons x as =>
      cases b with
      | nil =>
        cases g with
        | zero => simp only [List.length_cons, List.length_nil] at hg; omega
        | succ g => rfl
      | cons y bs =>
        cases g with
        | zero => simp only [List.length_cons] at hg; omega
        | succ g =>
          simp only [List.length_cons] at hf hg
          show (if x = y then lcsF f as bs + 1
              else max (lcsF f (x :: as) bs) (lcsF f as (y :: bs))) =
            (if x = y then lcsF g as bs + 1
              else max (lcsF g (x :: as) bs) (lcsF g as (y :: bs)))
          split
          · rw [ih g as bs (by omega) (by omega)]
          · rw [ih g (x :: as) bs (by simp only [List.length_cons]; omega)
                (by simp only [List.length_cons]; omega),
              ih g as (y :: bs) (by simp only [List.length_cons]; omega)
                (by simp only [List.length_cons]; omega)]

theorem lcsChars_nil_left (b : List Char) : lcsChars [] b = 0 := by
  cases b <;> rfl

theorem lcsChars_nil_right (a : List Char) : lcsChars a [] = 0 := by
  cases a <;> rfl

theorem lcsChars_cons (a : Char) (as : List Char) (b : Char) (bs : List Char) :
    lcsChars (a :: as) (b :: bs) =
      if a = b then lcsChars as bs + 1
      else max (lcsChars (a :: as) bs) (lcsChars as (b :: bs)) := by
  unfold lcsChars
  have h :
      lcsF ((a :: as).length + (b :: bs).length) (a :: as) (b :: bs) =
        lcsF (as.length + bs.length + 1 + 1) (a :: as) (b :: bs) := by
    apply lcsF_fuel_eq <;> (simp only [List.length_cons]; omega)
  rw [h]
  show (if a = b then lcsF (as.length + bs.length + 1) as bs + 1
      else max (lcsF (as.length + bs.length + 1) (a :: as) bs)
        (lcsF (as.length + bs.length + 1) as (b :: bs))) = _
  split
  · rw [lcsF_fuel_eq (as.length + bs.length + 1) (as.length + bs.length) as bs
      (by omega) (by omega)]
  · rw [lcsF_fuel_eq (as.length + bs.length + 1) ((a :: as).length + bs.length)
        (a :: as) bs (by simp only [List.length_cons]; omega)
        (by simp only [List.length_cons]; omega),
      lcsF_fuel_eq (as.length + bs.length + 1) (as.length + (b :: bs).length)
        as (b :: bs) (by simp only [List.length_cons]; omega)
        (by simp only [List.length_cons]; omega)]

theorem lcsChars_le_left (a b : List Char) : lcsChars a b ≤ a.length := by
  induction a generalizing b with
  | nil => simp [lcsChars_nil_left]
  | cons x as ih =>
    induction b with
    | nil => simp [lcsChars_nil_right]
    | cons y bs ihb =>
      rw [lcsChars_cons]
      split
      · simpa using ih bs
      · exact max_le ihb (le_trans (ih (y :: bs)) (by simp))

theorem lcsChars_le_right (a b : List Char) : lcsChars a b ≤ b.length := by
  induction b generalizing a with
  | nil => simp [lcsChars_nil_right]
  | cons y bs ih =>
    induction a with
    | nil => simp [lcsChars_nil_left]
    | cons x as iha =>
      rw [lcsChars_cons]
      split
      · simpa using ih as
      · exact max_le (le_trans (ih (x :: as)) (by simp)) iha

theorem lcsChars_self (a : List Char) : lcsChars a a = a.length := by
  induction a with
  | nil => simp [lcsChars_nil_left]
  | cons x as ih => simp [lcsChars_cons, ih]

/-! ## Bounds and diagonal value of the Indel similarity -/

theorem indelScore_nonneg (a b : List Char) : 0 ≤ indelScore a b := by
  unfold indelScore
  split
  · norm_num
  · rw [Rat.mkRat_eq_div]
    positivity

theorem indelScore_le_100 (a b : List Char) : indelScore a b ≤ 100 := by
  unfold indelScore
  split
  · norm_num
  next h =>
    rw [Rat.mkRat_eq_div]
    rw [div_le_iff₀ (by positivity)]
    have h1 : lcsChars a b ≤ a.length := lcsChars_le_left a b
    have h2 : lcsChars a b ≤ b.length := lcsChars_le_right a b
    have h3 : 200 * lcsChars a b ≤ 100 * (a.length + b.length) := by omega
    calc ((200 * lcsChars a b : ℕ) : ℚ) ≤ ((100 * (a.length + b.length) : ℕ) : ℚ) := by
          exact_mod_cast h3
      _ = 100 * ((a.length + b.length : ℕ) : ℚ) := by push_cast; ring

theorem indelScore_self (a : List Char) : indelScore a a = 100 := by
  unfold indelScore
  split
  · rfl
  next h =>
    rw [Rat.mkRat_eq_div, lcsChars_self]
    have ha : a.length ≠ 0 := by omega
    have : ((a.length + a.length : ℕ) : ℚ) = 2 * (a.length : ℚ) := by
      push_cast; ring
    rw [this]
    have hq : (a.length : ℚ) ≠ 0 := Nat.cast_ne_zero.mpr ha
    push_cast
    field_simp
    ring

/-! ## C10: exact match forces maximal similarity -/

/-- C10: two names that are exact-equal after normalization have similarity
exactly 100; hence for any threshold at most 100 the exact branch
(`matched`) can never report less than the fuzzy branch would, whose guard
`similarity ≥ threshold` also holds. -/
theorem exact_name_top_score (a b : String) (th : ℚ)
    (hex : is_exact_name a b = true) (hth : th ≤ 100) :
    name_similarity a b = 100 ∧ classify_name_status a b th = "matched" ∧
      th ≤ name_similarity a b := by
  have heq : normalize_name (some a) = normalize_name (some b) := by
    simpa [is_exact_name] using hex
  have hsim : name_similarity a b = 100 := by
    unfold name_similarity token_sort_score
    rw [heq]
    exact indelScore_self _
  refine ⟨hsim, ?_, by rw [hsim]; exact hth⟩
  simp [classify_name_status, is_exact_name, heq]

/-- Witness for C10 at the spec's own exactness example and the default
threshold. -/
theorem exact_name_top_score_witness :
    name_similarity "Jane Doe" "jane   doe" = 100 ∧
      classify_name_status "Jane Doe" "jane   doe" 92 = "matched" ∧
      (92 : ℚ) ≤ name_similarity "Jane Doe" "jane   doe" :=
  exact_name_top_score "Jane Doe" "jane   doe" 92 (by decide) (by norm_num)

/-! ## C6: similarity range; two empty names score 100, not 0 -/

/-- C6 (amended): `name_similarity` always returns a score in `[0, 100]`;
when both inputs normalize to the empty string it returns 100 (the rapidfuzz
convention for two empty strings), not 0 as the spec states. -/
theorem name_similarity_range (a b : String) :
    0 ≤ name_similarity a b ∧ name_similarity a b ≤ 100 ∧
      (normalize_name (some a) = "" → normalize_name (some b) = "" →
        name_similarity a b = 100) := by
  have he : ∀ x y : String, name_similarity x y =
      indelScore (joinSpace (sortToks (pySplit (normalize_name (some x)).data)))
        (joinSpace (sortToks (pySplit (normalize_name (some y)).data))) :=
    fun x y => rfl
  rw [he]
  refine ⟨indelScore_nonneg _ _, indelScore_le_100 _ _, ?_⟩
  intro ha hb
  rw [ha, hb]
  rfl

/-- Witness for C6's amended theorem: two inputs that normalize to the empty
string score 100. -/
theorem name_similarity_range_witness : name_similarity "!" "?" = 100 :=
  (name_similarity_range "!" "?").2.2 (by decide) (by decide)

/-- Counterexample for C6 as stated: both inputs empty (hence normalizing to
the empty string), yet the similarity is 100, not the claimed 0. -/
theorem name_similarity_both_empty_cex :
    name_similarity "" "" = 100 ∧ ¬ name_similarity "" "" = 0 := by decide

/-! ## C5: shape of the emitted payload -/

theorem classify_name_status_cases (q b : String) (th : ℚ) :
    classify_name_status q b th = "matched" ∨
      classify_name_status q b th = "Probable Match (Fuzzy Name)" ∨
      classify_name_status q b th = "no_match" := by
  unfold classify_name_status
  split
  · exact Or.inl rfl
  · split
    · exact Or.inr (Or.inl rfl)
    · exact Or.inr (Or.inr rfl)

theorem round4_den (q : ℚ) : (round4 q * 10000).den = 1 := by
  rw [round4, Rat.mkRat_eq_div]
  rw [show ((10000 : ℕ) : ℚ) = (10000 : ℚ) by norm_num,
    div_mul_cancel₀ _ (by norm_num : (10000 : ℚ) ≠ 0)]
  exact Rat.den_intCast _

/-- C5 (amended): every successfully emitted `run_matcher` payload is a
`MatchResult` — a mapping with exactly the four fields `name`,
`linkedin_url`, `image_similarity`, `match_status` — whose similarity is an
exact multiple of `1/10000` (4-decimal rounding) and whose status is one of
the three literals `"matched"`, `"Probable Match (Fuzzy Name)"`,
`"no_match"`.  (The claim's literal `probable_match_fuzzy_name` does not
occur — see the counterexample.) -/
theorem run_matcher_payload_shape (scorer : Scorer) (p : Person)
    (r : MatchResult) (h : (run_matcher scorer p).1 = .ok r) :
    (r.match_status = "matched" ∨
        r.match_status = "Probable Match (Fuzzy Name)" ∨
        r.match_status = "no_match") ∧
      (r.image_similarity * 10000).den = 1 := by
  obtain ⟨q, si, cs⟩ := p
  unfold run_matcher at h
  have hshort :
      (Except.ok ⟨q, some "no_match", 0, "no_match"⟩ :
          Except Unit MatchResult) = .ok r →
        (r.match_status = "matched" ∨
          r.match_status = "Probable Match (Fuzzy Name)" ∨
          r.match_status = "no_match") ∧ (r.image_similarity * 10000).den = 1 := by
    intro he
    cases Except.ok.inj he
    exact ⟨Or.inr (Or.inr rfl), by norm_num⟩
  cases si with
  | nil => exact hshort h
  | cons s ss =>
    cases cs with
    | nil => exact hshort h
    | cons c cs' =>
      simp only at h
      split at h
      · exact hshort h
      · unfold finalizeResult at h
        split at h
        · cases h
        · cases Except.ok.inj h
          exact ⟨classify_name_status_cases _ _ _, round4_den _⟩

/-- Witness for C5's amended theorem at a concrete record (short-circuit
payload). -/
theorem run_matcher_payload_shape_witness :
    ((⟨some "q", some "no_match", 0, "no_match"⟩ : MatchResult).match_status =
          "matched" ∨
        (⟨some "q", some "no_match", 0, "no_match"⟩ : MatchResult).match_status =
          "Probable Match (Fuzzy Name)" ∨
        (⟨some "q", some "no_match", 0, "no_match"⟩ : MatchResult).match_status =
          "no_match") ∧
      ((⟨some "q", some "no_match", 0, "no_match"⟩ : MatchResult).image_similarity *
          10000).den = 1 :=
  run_matcher_payload_shape (fun _ _ => .error ()) ⟨some "q", [], []⟩
    ⟨some "q", some "no_match", 0, "no_match"⟩ rfl

/-- Counterexample for C5 as stated: the fuzzy verdict emitted by
`run_matcher` is the literal `"Probable Match (Fuzzy Name)"`, which is not
among the claim's three literals (`matched`, `probable_match_fuzzy_name`,
`no_match`). -/
theorem run_matcher_status_literal_cex :
    (run_matcher (fun _ _ => .error ()) cexPersonC5).1 =
        .ok ⟨some ⟨List.replicate 23 'a'⟩, some "url1", mkRat 9 10,
          "Probable Match (Fuzzy Name)"⟩ ∧
      ¬ ("Probable Match (Fuzzy Name)" = "matched" ∨
          "Probable Match (Fuzzy Name)" = "probable_match_fuzzy_name" ∨
          "Probable Match (Fuzzy Name)" = "no_match") := by decide

/-! ## Structure of `pySplit` and `joinSpace` -/

theorem splitStep_agree (c : Char) (A B : List (List Char))
    (hf : A.filter (fun w => !w.isEmpty) = B.filter (fun w => !w.isEmpty))
    (hh : A.headD [] = B.headD []) :
    (splitStep c A).filter (fun w => !w.isEmpty) =
        (splitStep c B).filter (fun w => !w.isEmpty) ∧
      (splitStep c A).headD [] = (splitStep c B).headD [] := by
  unfold splitStep
  by_cases hsp : isPySpace c
  · simp only [hsp, if_true]
    constructor
    · simp [List.filter_cons, hf]
    · simp
  · simp only [hsp, Bool.false_eq_true, if_false]
    cases A with
    | nil =>
      cases B with
      | nil => exact ⟨rfl, rfl⟩
      | cons w ws =>
        have hw : w = [] := by simpa using hh.symm
        subst hw
        have hws : ws.filter (fun w => !w.isEmpty) = [] := by
          simpa using hf.symm
        refine ⟨?_, by simp⟩
        simp [List.filter_cons, hws]
    | cons w ws =>
      cases B with
      | nil =>
        have hw : w = [] := by simpa using hh
        subst hw
        have hws : ws.filter (fun w => !w.isEmpty) = [] := by
          simpa using hf
        refine ⟨?_, by simp⟩
        simp [List.filter_cons, hws]
      | cons v vs =>
        have hw : w = v := by simpa using hh
        subst hw
        have htail : ws.filter (fun w => !w.isEmpty) =
            vs.filter (fun w => !w.isEmpty) := by
          by_cases hwe : w = []
          · subst hwe
            simpa [List.filter_cons] using hf
          · have : (!w.isEmpty) = true := by
              simpa using hwe
            rw [List.filter_cons, List.filter_cons, this] at hf
            simpa using hf
        refine ⟨?_, by simp⟩
        simp [List.filter_cons, htail]

theorem subBad_split_agree (cs : List Char) :
    ((List.foldr splitStep [] (subBadRuns false cs)).filter
          (fun w => !w.isEmpty) =
        (List.foldr splitStep []
            (cs.map (fun c => if keptChar c then c else ' '))).filter
          (fun w => !w.isEmpty) ∧
      (List.foldr splitStep [] (subBadRuns false cs)).headD [] =
        (List.foldr splitStep []
            (cs.map (fun c => if keptChar c then c else ' '))).headD []) ∧
    (List.foldr splitStep [] (subBadRuns true cs)).filter
        (fun w => !w.isEmpty) =
      (List.foldr splitStep []
          (cs.map (fun c => if keptChar c then c else ' '))).filter
        (fun w => !w.isEmpty) := by
  induction cs with
  | nil => exact ⟨⟨rfl, rfl⟩, rfl⟩
  | cons c cs ih =>
    by_cases hk : keptChar c
    · have hA : subBadRuns false (c :: cs) = c :: subBadRuns false cs := by
        simp [subBadRuns, hk]
      have hA' : subBadRuns true (c :: cs) = c :: subBadRuns false cs := by
        simp [subBadRuns, hk]
      have hM : (c :: cs).map (fun c => if keptChar c then c else ' ') =
          c :: cs.map (fun c => if keptChar c then c else ' ') := by
        simp [hk]
      rw [hA, hA', hM]
      simp only [List.foldr_cons]
      have h1 := splitStep_agree c _ _ ih.1.1 ih.1.2
      exact ⟨⟨h1.1, h1.2⟩, h1.1⟩
    · have hA : subBadRuns false (c :: cs) = ' ' :: subBadRuns true cs := by
        simp [subBadRuns, hk]
      have hA' : subBadRuns true (c :: cs) = subBadRuns true cs := by
        simp [subBadRuns, hk]
      have hM : (c :: cs).map (fun c => if keptChar c then c else ' ') =
          ' ' :: cs.map (fun c => if keptChar c then c else ' ') := by
        simp [hk]
      rw [hA, hA', hM]
      simp only [List.foldr_cons]
      have hsp : isPySpace ' ' = true := by decide
      constructor
      · constructor
        · show (splitStep ' ' _).filter _ = (splitStep ' ' _).filter _
          simp only [splitStep, hsp, if_true]
          simp [List.filter_cons, ih.2]
        · simp [splitStep, hsp]
      · show _ = (splitStep ' ' _).filter _
        simp only [splitStep, hsp, if_true]
        simp [List.filter_cons, ih.2]

theorem pySplit_subBad (cs : List Char) :
    pySplit (subBadRuns false cs) =
      pySplit (cs.map (fun c => if keptChar c then c else ' ')) :=
  (subBad_split_agree cs).1.1

theorem raw_split_words (cs : List Char) :
    ∀ w ∈ List.foldr splitStep [] cs, ∀ c ∈ w,
      c ∈ cs ∧ isPySpace c = false := by
  induction cs with
  | nil => intro w hw; simp at hw
  | cons x cs ih =>
    intro w hw c hc
    simp only [List.foldr_cons] at hw
    by_cases hsp : isPySpace x
    · simp only [splitStep, hsp, if_true] at hw
      rcases List.mem_cons.mp hw with h | h
      · subst h; simp at hc
      · have := ih w h c hc
        exact ⟨List.mem_cons_of_mem _ this.1, this.2⟩
    · have hsp' : isPySpace x = false := by simpa using hsp
      simp only [splitStep, hsp, Bool.false_eq_true, if_false] at hw
      cases hR : List.foldr splitStep [] cs with
      | nil =>
        rw [hR] at hw
        have hwx : w = [x] := by simpa using hw
        subst hwx
        have hcx : c = x := by simpa using hc
        subst hcx
        exact ⟨List.mem_cons_self _ _, hsp'⟩
      | cons r rs =>
        rw [hR] at hw
        rcases List.mem_cons.mp hw with h | h
        · subst h
          rcases List.mem_cons.mp hc with h' | h'
          · subst h'
            exact ⟨List.mem_cons_self _ _, hsp'⟩
          · have := ih r (hR ▸ List.mem_cons_self r rs) c h'
            exact ⟨List.mem_cons_of_mem _ this.1, this.2⟩
        · have := ih w (hR ▸ List.mem_cons_of_mem r h) c hc
          exact ⟨List.mem_cons_of_mem _ this.1, this.2⟩

theorem pySplit_words (cs : List Char) :
    ∀ w ∈ pySplit cs, w ≠ [] ∧ ∀ c ∈ w, c ∈ cs ∧ isPySpace c = false := by
  intro w hw
  unfold pySplit at hw
  rcases List.mem_filter.mp hw with ⟨hmem, hp⟩
  refine ⟨by simpa using hp, fun c hc => raw_split_words cs w hmem c hc⟩

theorem foldr_word_cons (w : List Char) (hw : ∀ c ∈ w, isPySpace c = false)
    (a : List Char) (as : List (List Char)) :
    List.foldr splitStep (a :: as) w = (w ++ a) :: as := by
  induction w with
  | nil => rfl
  | cons c w' ih =>
    have hc : isPySpace c = false := hw c (List.mem_cons_self _ _)
    have ih' := ih (fun d hd => hw d (List.mem_cons_of_mem _ hd))
    simp only [List.foldr_cons, ih', splitStep, hc, Bool.false_eq_true,
      if_false, List.cons_append]

theorem foldr_word_nil (w : List Char) (hw : ∀ c ∈ w, isPySpace c = false)
    (hne : w ≠ []) : List.foldr splitStep [] w = [w] := by
  cases w with
  | nil => exact absurd rfl hne
  | cons c w' =>
    have hc : isPySpace c = false := hw c (List.mem_cons_self _ _)
    cases w' with
    | nil => simp [splitStep, hc]
    | cons d w'' =>
      have h' := foldr_word_nil (d :: w'')
        (fun e he => hw e (List.mem_cons_of_mem _ he)) (by simp)
      simp only [List.foldr_cons] at h' ⊢
      rw [h']
      simp [splitStep, hc]

theorem raw_joinSpace (ws : List (List Char))
    (h : ∀ w ∈ ws, w ≠ [] ∧ ∀ c ∈ w, isPySpace c = false) :
    List.foldr splitStep [] (joinSpace ws) = ws := by
  induction ws with
  | nil => rfl
  | cons w ws ih =>
    cases ws with
    | nil =>
      show List.foldr splitStep [] w = [w]
      exact foldr_word_nil w (h w (List.mem_cons_self _ _)).2
        (h w (List.mem_cons_self _ _)).1
    | cons v vs =>
      have hj : joinSpace (w :: v :: vs) = w ++ ' ' :: joinSpace (v :: vs) :=
        rfl
      rw [hj, List.foldr_append]
      have hin : splitStep ' ' (List.foldr splitStep [] (joinSpace (v :: vs))) =
          [] :: v :: vs := by
        rw [ih (fun u hu => h u (List.mem_cons_of_mem _ hu))]
        simp [splitStep, show isPySpace ' ' = true from by decide]
      simp only [List.foldr_cons]
      rw [hin, foldr_word_cons w (h w (List.mem_cons_self _ _)).2 [] (v :: vs)]
      simp

theorem pySplit_joinSpace (ws : List (List Char))
    (h : ∀ w ∈ ws, w ≠ [] ∧ ∀ c ∈ w, isPySpace c = false) :
    pySplit (joinSpace ws) = ws := by
  unfold pySplit
  rw [raw_joinSpace ws h]
  apply List.filter_eq_self.mpr
  intro w hw
  simpa using (h w hw).1

/-! ## Character-level facts for idempotence -/

theorem subBadRuns_chars (cs : List Char) :
    ∀ b, ∀ c ∈ subBadRuns b cs, keptChar c = true := by
  induction cs with
  | nil => intro b c hc; simp [subBadRuns] at hc
  | cons x cs ih =>
    intro b c hc
    by_cases hk : keptChar x
    · rw [show subBadRuns b (x :: cs) = x :: subBadRuns false cs from by
        simp [subBadRuns, hk]] at hc
      rcases List.mem_cons.mp hc with h | h
      · subst h; exact hk
      · exact ih false c h
    · cases b with
      | true =>
        rw [show subBadRuns true (x :: cs) = subBadRuns true cs from by
          simp [subBadRuns, hk]] at hc
        exact ih true c hc
      | false =>
        rw [show subBadRuns false (x :: cs) = ' ' :: subBadRuns true cs from by
          simp [subBadRuns, hk]] at hc
        rcases List.mem_cons.mp hc with h | h
        · subst h; decide
        · exact ih true c h

theorem isPySpace_toNat (c : Char) (h : isPySpace c = true) :
    c.toNat = 32 ∨ c.toNat = 9 ∨ c.toNat = 10 ∨ c.toNat = 13 ∨
      c.toNat = 11 ∨ c.toNat = 12 := by
  simp only [isPySpace, Bool.or_eq_true, beq_iff_eq] at h
  rcases h with ((((h | h) | h) | h) | h) | h <;> subst h <;> simp

theorem keptChar_fixes (c : Char) (h : keptChar c = true) :
    c.toNat < 128 ∧ pyLowerChar c = c := by
  have hlow : ¬(65 ≤ c.toNat ∧ c.toNat ≤ 90) → pyLowerChar c = c := by
    intro hn
    unfold pyLowerChar
    rw [if_neg (by simpa [Bool.and_eq_true, decide_eq_true_eq] using hn)]
  simp only [keptChar, Bool.or_eq_true, Bool.and_eq_true,
    decide_eq_true_eq, beq_iff_eq] at h
  rcases h with (((⟨h1, h2⟩ | ⟨h1, h2⟩) | hsp) | hap) | hhy
  · exact ⟨by omega, hlow (by omega)⟩
  · exact ⟨by omega, hlow (by omega)⟩
  · rcases isPySpace_toNat c hsp with h | h | h | h | h | h <;>
      exact ⟨by omega, hlow (by omega)⟩
  · subst hap; exact ⟨by decide, by decide⟩
  · subst hhy; exact ⟨by decide, by decide⟩

theorem translitChars_fixes (cs : List Char) (h : ∀ c ∈ cs, c.toNat < 128) :
    translitChars cs = cs := by
  induction cs with
  | nil => rfl
  | cons c cs ih =>
    show (unidecodeChar c).data ++ translitChars cs = c :: cs
    rw [show unidecodeChar c = String.singleton c from by
      unfold unidecodeChar
      exact if_pos (h c (List.mem_cons_self _ _))]
    rw [ih (fun d hd => h d (List.mem_cons_of_mem _ hd))]
    rfl

theorem subBadRuns_id (cs : List Char) (h : ∀ c ∈ cs, keptChar c = true) :
    ∀ b, subBadRuns b cs = cs := by
  induction cs with
  | nil => intro b; rfl
  | cons c cs ih =>
    intro b
    have hc : keptChar c = true := h c (List.mem_cons_self _ _)
    show subBadRuns b (c :: cs) = c :: cs
    rw [show subBadRuns b (c :: cs) = c :: subBadRuns false cs from by
      simp [subBadRuns, hc]]
    rw [ih (fun d hd => h d (List.mem_cons_of_mem _ hd)) false]

theorem joinSpace_chars (ws : List (List Char)) :
    ∀ c ∈ joinSpace ws, (∃ w ∈ ws, c ∈ w) ∨ c = ' ' := by
  induction ws with
  | nil => intro c hc; simp [joinSpace] at hc
  | cons w ws ih =>
    intro c hc
    cases ws with
    | nil =>
      exact Or.inl ⟨w, List.mem_cons_self _ _, by simpa [joinSpace] using hc⟩
    | cons v vs =>
      rw [show joinSpace (w :: v :: vs) = w ++ ' ' :: joinSpace (v :: vs)
        from rfl] at hc
      rcases List.mem_append.mp hc with h | h
      · exact Or.inl ⟨w, List.mem_cons_self _ _, h⟩
      · rcases List.mem_cons.mp h with h' | h'
        · exact Or.inr h'
        · rcases ih c h' with ⟨u, hu, hcu⟩ | h''
          · exact Or.inl ⟨u, List.mem_cons_of_mem _ hu, hcu⟩
          · exact Or.inr h''

/-! ## C7: what `normalize_name` does to characters -/

/-- C7 (amended): `normalize_name` lowercases, transliterates diacritics,
*replaces each maximal run of characters outside
letters/digits/whitespace/apostrophe/hyphen with a single space* (the claim
instead said "removes" such characters — see the counterexample), and
collapses whitespace runs to single spaces; empty or null input gives the
empty string.  Stated as: per-character space-replacement followed by the
whitespace collapse computes `normalize_name`. -/
theorem normalize_name_description (s : Option String) :
    normalize_name s = normalize_spaced s ∧
      normalize_name none = "" ∧ normalize_name (some "") = "" := by
  refine ⟨?_, by decide, by decide⟩
  unfold normalize_name normalize_spaced
  exact congrArg (fun l => String.mk (joinSpace l)) (pySplit_subBad _)

/-- Counterexample for C7 as stated: on `"a.b"` the code *replaces* the run
`"."` with a space, yielding `"a b"`, whereas removing the disallowed
characters (the claim's wording) would yield `"ab"`. -/
theorem normalize_name_removal_cex :
    normalize_name (some "a.b") = "a b" ∧
      normalize_claimed (some "a.b") = "ab" ∧
      ¬ normalize_name (some "a.b") = normalize_claimed (some "a.b") := by
  decide

theorem map_id_of_fixes {α : Type} (f : α → α) (l : List α)
    (h : ∀ a ∈ l, f a = a) : l.map f = l := by
  induction l with
  | nil => rfl
  | cons x xs ih =>
    simp only [List.map_cons]
    rw [h x (List.mem_cons_self _ _),
      ih (fun a ha => h a (List.mem_cons_of_mem _ ha))]

/-! ## C9: idempotence of normalization -/

/-- C9: `normalize_name` is idempotent — normalizing an already-normalized
name returns it unchanged. -/
theorem normalize_name_idem (s : Option String) :
    normalize_name (some (normalize_name s)) = normalize_name s := by
  have hout : normalize_name s =
      ⟨joinSpace (pySplit (subBadRuns false
        ((translitChars (s.getD "").data).map pyLowerChar)))⟩ := rfl
  set X : List Char :=
    subBadRuns false ((translitChars (s.getD "").data).map pyLowerChar)
    with hX
  set ws : List (List Char) := pySplit X with hws
  have hwords : ∀ w ∈ ws, w ≠ [] ∧ ∀ c ∈ w, c ∈ X ∧ isPySpace c = false :=
    pySplit_words X
  have hkept : ∀ c ∈ joinSpace ws, keptChar c = true := by
    intro c hc
    rcases joinSpace_chars ws c hc with ⟨w, hw, hcw⟩ | hsp
    · exact subBadRuns_chars _ false c ((hwords w hw).2 c hcw).1
    · subst hsp; decide
  have hascii : ∀ c ∈ joinSpace ws, c.toNat < 128 :=
    fun c hc => (keptChar_fixes c (hkept c hc)).1
  have h1 : translitChars (joinSpace ws) = joinSpace ws :=
    translitChars_fixes _ hascii
  have h2 : (joinSpace ws).map pyLowerChar = joinSpace ws :=
    map_id_of_fixes pyLowerChar _
      (fun c hc => (keptChar_fixes c (hkept c hc)).2)
  have h3 : subBadRuns false (joinSpace ws) = joinSpace ws :=
    subBadRuns_id _ hkept false
  have h4 : pySplit (joinSpace ws) = ws :=
    pySplit_joinSpace ws (fun w hw =>
      ⟨(hwords w hw).1, fun c hc => ((hwords w hw).2 c hc).2⟩)
  show (⟨joinSpace (pySplit (subBadRuns false
      ((translitChars (normalize_name s).data).map pyLowerChar)))⟩ : String) =
    normalize_name s
  rw [hout]
  show (⟨joinSpace (pySplit (subBadRuns false
      ((translitChars (joinSpace ws)).map pyLowerChar)))⟩ : String) = _
  rw [h1, h2, h3, h4]

/-! ## Populator step analysis -/

theorem map_congr_own {α β : Type} (f g : α → β) (l : List α)
    (h : ∀ a ∈ l, f a = g a) : l.map f = l.map g := by
  induction l with
  | nil => rfl
  | cons x xs ih =>
    simp only [List.map_cons]
    rw [h x (List.mem_cons_self _ _),
      ih (fun a ha => h a (List.mem_cons_of_mem _ ha))]

theorem set_candidate_face_getElem (p : Person) (u : String) (fm : FaceVal)
    (i : Nat) :
    (set_candidate_face p u fm).candidates[i]? =
      (p.candidates[i]?).map (fun c =>
        if c.profile_url == some u then { c with face := some fm } else c) := by
  unfold set_candidate_face
  exact List.getElem?_map _ _ _

theorem set_candidate_face_skeleton (p : Person) (u : String) (fm : FaceVal) :
    (set_candidate_face p u fm).candidates.map dropFace =
      p.candidates.map dropFace := by
  unfold set_candidate_face
  simp only
  rw [List.map_map]
  apply map_congr_own
  intro c _
  show dropFace (if c.profile_url == some u then { c with face := some fm }
    else c) = dropFace c
  split <;> rfl

theorem has_face_true_of (p : Person) (u : String) (i : Nat) (ci : Candidate)
    (hc : p.candidates[i]? = some ci) (hface : ci.face.isSome = true)
    (hbeq : (ci.profile_url == some u) = true) :
    candidate_has_face p u = true := by
  unfold candidate_has_face
  rw [List.any_eq_true]
  exact ⟨ci, List.getElem?_mem hc, by rw [Bool.and_eq_true]; exact ⟨hbeq, hface⟩⟩

/-- Each Populator iteration either leaves the state unchanged (and the
candidate was skipped for one of the four reasons) or scores the candidate:
it persists `fmOfResult` of the scorer's outcome under the candidate's URL
and logs the invocation. -/
theorem popStep_cases (scorer : Scorer) (src : String)
    (st : Person × List Candidate) (c : Candidate) :
    (popStep scorer src st c = st ∧
        (isSentinel c = true ∨
          truthyS (pyOr c.photo_path c.image_file) = false ∨
          truthyS c.profile_url = false ∨
          candidate_has_face st.1 (c.profile_url.getD "") = true)) ∨
      (isSentinel c = false ∧
        truthyS (pyOr c.photo_path c.image_file) = true ∧
        truthyS c.profile_url = true ∧
        candidate_has_face st.1 (c.profile_url.getD "") = false ∧
        popStep scorer src st c =
          (set_candidate_face st.1 (c.profile_url.getD "")
              (fmOfResult (scorer src ((pyOr c.photo_path c.image_file).getD ""))),
            st.2 ++ [c])) := by
  by_cases h1 : isSentinel c
  · exact Or.inl ⟨by simp [popStep, h1], Or.inl h1⟩
  · have h1' : isSentinel c = false := by simpa using h1
    by_cases h2 : truthyS (pyOr c.photo_path c.image_file)
    · by_cases h3 : truthyS c.profile_url
      · by_cases h4 : candidate_has_face st.1 (c.profile_url.getD "")
        · refine Or.inl ⟨?_, Or.inr (Or.inr (Or.inr h4))⟩
          simp [popStep, h1', h2, h3, h4]
        · have h4' : candidate_has_face st.1 (c.profile_url.getD "") = false :=
            by simpa using h4
          refine Or.inr ⟨h1', h2, h3, h4', ?_⟩
          cases hs : scorer src ((pyOr c.photo_path c.image_file).getD "") with
          | ok fm => simp [popStep, h1', h2, h3, h4', hs, fmOfResult]
          | error e => simp [popStep, h1', h2, h3, h4', hs, fmOfResult]
      · have h3' : truthyS c.profile_url = false := by simpa using h3
        refine Or.inl ⟨?_, Or.inr (Or.inr (Or.inl h3'))⟩
        simp [popStep, h1', h3']
    · have h2' : truthyS (pyOr c.photo_path c.image_file) = false := by
        simpa using h2
      refine Or.inl ⟨?_, Or.inr (Or.inl h2')⟩
      simp [popStep, h1', h2']

theorem fold_skeleton (scorer : Scorer) (src : String)
    (l : List Candidate) (st : Person × List Candidate) :
    (l.foldl (popStep scorer src) st).1.candidates.map dropFace =
      st.1.candidates.map dropFace := by
  induction l generalizing st with
  | nil => rfl
  | cons c l ih =>
    rw [List.foldl_cons, ih]
    rcases popStep_cases scorer src st c with ⟨heq, _⟩ | ⟨_, _, _, _, heq⟩
    · rw [heq]
    · rw [heq]
      exact set_candidate_face_skeleton _ _ _

theorem fold_calls_mono (scorer : Scorer) (src : String)
    (l : List Candidate) (st : Person × List Candidate) (x : Candidate)
    (h : x ∈ st.2) : x ∈ (l.foldl (popStep scorer src) st).2 := by
  induction l generalizing st with
  | nil => exact h
  | cons c l ih =>
    rw [List.foldl_cons]
    rcases popStep_cases scorer src st c with ⟨heq, _⟩ | ⟨_, _, _, _, heq⟩
    · rw [heq]; exact ih st h
    · rw [heq]
      exact ih _ (List.mem_append_left _ h)

/-- An already-scored candidate is never touched by a Populator iteration:
its entry is unchanged, and if the iteration logged a scorer call it was for
a different candidate. -/
theorem popStep_faced (scorer : Scorer) (src : String)
    (st : Person × List Candidate) (c : Candidate) (i : Nat) (ci : Candidate)
    (hc : st.1.candidates[i]? = some ci) (hface : ci.face.isSome = true) :
    (popStep scorer src st c).1.candidates[i]? = some ci ∧
      ((popStep scorer src st c).2 = st.2 ∨
        ((popStep scorer src st c).2 = st.2 ++ [c] ∧ c ≠ ci)) := by
  rcases popStep_cases scorer src st c with ⟨heq, _⟩ | ⟨_, _, ht2, hhf, heq⟩
  · rw [heq]; exact ⟨hc, Or.inl rfl⟩
  · rw [heq]
    have hb : (ci.profile_url == some (c.profile_url.getD "")) = false := by
      cases hbe : ci.profile_url == some (c.profile_url.getD "") with
      | false => rfl
      | true =>
        have := has_face_true_of st.1 _ i ci hc hface hbe
        rw [this] at hhf
        simp at hhf
    constructor
    · rw [set_candidate_face_getElem, hc]
      simp [hb]
      intro h'
      rw [h'] at hb
      simp at hb
    · refine Or.inr ⟨rfl, ?_⟩
      intro hcc
      subst hcc
      cases hcu : c.profile_url with
      | none => rw [hcu] at ht2; simp [truthyS] at ht2
      | some u =>
        rw [hcu] at hb
        simp at hb

theorem fold_faced_state (scorer : Scorer) (src : String)
    (l : List Candidate) (st : Person × List Candidate) (i : Nat)
    (ci : Candidate) (hc : st.1.candidates[i]? = some ci)
    (hface : ci.face.isSome = true) :
    (l.foldl (popStep scorer src) st).1.candidates[i]? = some ci := by
  induction l generalizing st with
  | nil => exact hc
  | cons c l ih =>
    rw [List.foldl_cons]
    exact ih _ (popStep_faced scorer src st c i ci hc hface).1

theorem fold_faced_calls (scorer : Scorer) (src : String)
    (l : List Candidate) (st : Person × List Candidate) (i : Nat)
    (ci : Candidate) (hc : st.1.candidates[i]? = some ci)
    (hface : ci.face.isSome = true) (hni : ci ∉ st.2) :
    ci ∉ (l.foldl (popStep scorer src) st).2 := by
  induction l generalizing st with
  | nil => exact hni
  | cons c l ih =>
    rw [List.foldl_cons]
    obtain ⟨hc', hcalls⟩ := popStep_faced scorer src st c i ci hc hface
    rcases hcalls with heq | ⟨heq, hne⟩
    · exact ih _ hc' (heq ▸ hni)
    · apply ih _ hc'
      rw [heq]
      intro hmem
      rcases List.mem_append.mp hmem with h | h
      · exact hni h
      · exact hne (List.mem_singleton.mp h).symm

theorem beq_url_false (ci c : Candidate) (u : String)
    (hurl : ci.profile_url = some u)
    (ht2 : truthyS c.profile_url = true)
    (hne : c.profile_url ≠ some u) :
    (ci.profile_url == some (c.profile_url.getD "")) = false := by
  cases hcu : c.profile_url with
  | none => simp [truthyS, hcu] at ht2
  | some v =>
    rw [hurl]
    have hgd : (Option.getD (some v) "") = v := rfl
    rw [hgd]
    have huv : u ≠ v := fun h => hne (by rw [hcu, h])
    simp [huv]

theorem fold_sentinel (scorer : Scorer) (src : String)
    (l : List Candidate) (st : Person × List Candidate) (i : Nat)
    (ci : Candidate) (hc : st.1.candidates[i]? = some ci)
    (hsent : isSentinel ci = true)
    (hl : ∀ c ∈ l, c ≠ ci → ∀ u, ci.profile_url = some u →
      c.profile_url ≠ some u)
    (hni : ci ∉ st.2) :
    (l.foldl (popStep scorer src) st).1.candidates[i]? = some ci ∧
      ci ∉ (l.foldl (popStep scorer src) st).2 := by
  induction l generalizing st with
  | nil => exact ⟨hc, hni⟩
  | cons c l ih =>
    rw [List.foldl_cons]
    have hltail : ∀ c' ∈ l, c' ≠ ci → ∀ u, ci.profile_url = some u →
        c'.profile_url ≠ some u :=
      fun c' hc' => hl c' (List.mem_cons_of_mem _ hc')
    by_cases hcc : c = ci
    · subst hcc
      rcases popStep_cases scorer src st c with ⟨heq, _⟩ | ⟨hs, _, _, _, _⟩
      · rw [heq]; exact ih st hc hltail hni
      · rw [hsent] at hs; simp at hs
    · rcases popStep_cases scorer src st c with ⟨heq, _⟩ |
        ⟨_, _, ht2, _, heq⟩
      · rw [heq]; exact ih st hc hltail hni
      · rw [heq]
        have hb : (ci.profile_url == some (c.profile_url.getD "")) = false := by
          cases hciu : ci.profile_url with
          | none => rfl
          | some u =>
            exact hciu ▸ beq_url_false ci c u hciu ht2
              (hl c (List.mem_cons_self _ _) hcc u hciu)
        refine ih _ ?_ hltail ?_
        · rw [set_candidate_face_getElem, hc]
          simp [hb]
          intro h'
          rw [h'] at hb
          simp at hb
        · intro hmem
          rcases List.mem_append.mp hmem with h | h
          · exact hni h
          · exact hcc (List.mem_singleton.mp h).symm

/-! ## URL uniqueness transfer -/

theorem urls_all_eq (l₁ l₂ : List Candidate)
    (h : l₁.map (fun c => c.profile_url) = l₂.map (fun c => c.profile_url))
    (u : String) :
    l₁.all (fun d => !(d.profile_url == some u)) =
      l₂.all (fun d => !(d.profile_url == some u)) := by
  induction l₁ generalizing l₂ with
  | nil =>
    cases l₂ with
    | nil => rfl
    | cons d ds => simp at h
  | cons c cs ih =>
    cases l₂ with
    | nil => simp at h
    | cons d ds =>
      simp only [List.map_cons, List.cons.injEq] at h
      simp only [List.all_cons, h.1, ih ds h.2]

theorem urlsOK_congr (l₁ l₂ : List Candidate)
    (h : l₁.map (fun c => c.profile_url) = l₂.map (fun c => c.profile_url)) :
    urlsOK l₁ = urlsOK l₂ := by
  induction l₁ generalizing l₂ with
  | nil =>
    cases l₂ with
    | nil => rfl
    | cons d ds => simp at h
  | cons c cs ih =>
    cases l₂ with
    | nil => simp at h
    | cons d ds =>
      simp only [List.map_cons, List.cons.injEq] at h
      show ((match c.profile_url with
          | none => true
          | some u => cs.all (fun d => !(d.profile_url == some u))) &&
            urlsOK cs) =
        ((match d.profile_url with
          | none => true
          | some u => ds.all (fun d => !(d.profile_url == some u))) &&
            urlsOK ds)
      rw [h.1, ih ds h.2]
      cases d.profile_url with
      | none => rfl
      | some u =>
        show (cs.all (fun d => !(d.profile_url == some u)) && urlsOK ds) =
          (ds.all (fun d => !(d.profile_url == some u)) && urlsOK ds)
        rw [urls_all_eq cs ds h.2 u]

theorem urls_of_skeleton (l₁ l₂ : List Candidate)
    (h : l₁.map dropFace = l₂.map dropFace) :
    l₁.map (fun c => c.profile_url) = l₂.map (fun c => c.profile_url) := by
  have h1 : ∀ l : List Candidate, l.map (fun c => c.profile_url) =
      (l.map dropFace).map (fun c => c.profile_url) := by
    intro l
    rw [List.map_map]
    rfl
  rw [h1 l₁, h1 l₂, h]

theorem urlsOK_unique (l : List Candidate) (hu : urlsOK l = true) :
    ∀ (i : Nat) (ci : Candidate), l[i]? = some ci → ∀ c ∈ l, c ≠ ci → ∀ u,
      ci.profile_url = some u → c.profile_url ≠ some u := by
  induction l with
  | nil => intro i ci hci; simp at hci
  | cons d ds ih =>
    intro i ci hci c hcmem hne u hu' hcu
    have hsplit : (match d.profile_url with
        | none => true
        | some v => ds.all (fun e => !(e.profile_url == some v))) = true ∧
        urlsOK ds = true := by
      have h0 : ((match d.profile_url with
          | none => true
          | some v => ds.all (fun e => !(e.profile_url == some v))) &&
            urlsOK ds) = true := hu
      rw [Bool.and_eq_true] at h0
      exact h0
    cases i with
    | zero =>
      have hdc : d = ci := by simpa using hci
      subst hdc
      rw [hu'] at hsplit
      rcases List.mem_cons.mp hcmem with h | h
      · exact hne (h ▸ rfl)
      · have := List.all_eq_true.mp hsplit.1 c h
        rw [hcu] at this
        simp at this
    | succ i =>
      have hci' : ds[i]? = some ci := by simpa using hci
      rcases List.mem_cons.mp hcmem with h | h
      · subst h
        rw [hcu] at hsplit
        have := List.all_eq_true.mp hsplit.1 ci (List.getElem?_mem hci')
        rw [hu'] at this
        simp at this
      · exact ih hsplit.2 i ci hci' c h hne u hu' hcu

/-! ## C2: second Populator run is a no-op for scored and sentinel entries -/

/-- C2: after one Populator run, a second run with the same source image is a
no-op for every candidate that already has face metrics (success or error)
and for every sentinel-marked candidate: the candidate's entry is unchanged
and the face scorer is never invoked for it (it is absent from the second
run's invocation log).  Assumes the spec's §3 invariant that profile URLs
are unique within a record. -/
theorem populator_second_run_noop (scorer : Scorer) (src : String)
    (p : Person) (hu : urlsOK p.candidates = true) (i : Nat) (ci : Candidate)
    (hc : (compute_missing_face_metrics scorer src p).1.candidates[i]? =
      some ci)
    (hcase : ci.face.isSome = true ∨ isSentinel ci = true) :
    (compute_missing_face_metrics scorer src
        ((compute_missing_face_metrics scorer src p).1)).1.candidates[i]? =
        some ci ∧
      ci ∉ (compute_missing_face_metrics scorer src
        ((compute_missing_face_metrics scorer src p).1)).2 := by
  rcases hcase with hface | hsent
  · exact ⟨fold_faced_state scorer src _ _ i ci hc hface,
      fold_faced_calls scorer src _ _ i ci hc hface (by simp)⟩
  · have hskel : (compute_missing_face_metrics scorer src p).1.candidates.map
        dropFace = p.candidates.map dropFace :=
      fold_skeleton scorer src p.candidates (p, [])
    have hu1 : urlsOK
        (compute_missing_face_metrics scorer src p).1.candidates = true := by
      rw [urlsOK_congr _ p.candidates (urls_of_skeleton _ _ hskel)]
      exact hu
    have hl : ∀ c ∈ (compute_missing_face_metrics scorer src p).1.candidates,
        c ≠ ci → ∀ u, ci.profile_url = some u → c.profile_url ≠ some u :=
      urlsOK_unique _ hu1 i ci hc
    exact fold_sentinel scorer src _ _ i ci hc hsent hl (by simp)

/-- Witness for C2: after a first run on a record with an already-scored
candidate, a sentinel candidate and a fresh one, the second run leaves the
scored and the sentinel candidates untouched and never calls the scorer for
them. -/
theorem populator_second_run_noop_witness :
    ((compute_missing_face_metrics wScorerC2 "s.jpg"
          ((compute_missing_face_metrics wScorerC2 "s.jpg"
            wPersonC2).1)).1.candidates[0]? =
        some ⟨some "u0", some "n0", some "p0.jpg", none,
          some ⟨some (.num (mkRat 1 2)), none⟩⟩ ∧
      (⟨some "u0", some "n0", some "p0.jpg", none,
          some ⟨some (.num (mkRat 1 2)), none⟩⟩ : Candidate) ∉
        (compute_missing_face_metrics wScorerC2 "s.jpg"
          ((compute_missing_face_metrics wScorerC2 "s.jpg" wPersonC2).1)).2) ∧
    ((compute_missing_face_metrics wScorerC2 "s.jpg"
          ((compute_missing_face_metrics wScorerC2 "s.jpg"
            wPersonC2).1)).1.candidates[1]? =
        some ⟨some "u1", some "n1", some NO_IMAGE_TOKEN, none, none⟩ ∧
      (⟨some "u1", some "n1", some NO_IMAGE_TOKEN, none, none⟩ : Candidate) ∉
        (compute_missing_face_metrics wScorerC2 "s.jpg"
          ((compute_missing_face_metrics wScorerC2 "s.jpg" wPersonC2).1)).2) :=
  ⟨populator_second_run_noop wScorerC2 "s.jpg" wPersonC2 (by decide) 0
      ⟨some "u0", some "n0", some "p0.jpg", none,
        some ⟨some (.num (mkRat 1 2)), none⟩⟩ (by decide)
      (Or.inl (by decide)),
    populator_second_run_noop wScorerC2 "s.jpg" wPersonC2 (by decide) 1
      ⟨some "u1", some "n1", some NO_IMAGE_TOKEN, none, none⟩ (by decide)
      (Or.inr (by decide))⟩

/-! ## C3: eligible candidates are scored once; failures become markers -/

/-- An eligible candidate (no sentinel, usable image and URL, no metrics yet,
its URL held by no other entry) is scored exactly as `fmOfResult` of the
scorer's outcome, and the scorer is invoked for it. -/
theorem fold_eligible (scorer : Scorer) (src : String)
    (l : List Candidate) (st : Person × List Candidate) (i : Nat)
    (ci : Candidate) (u : String)
    (hc : st.1.candidates[i]? = some ci)
    (hface : ci.face = none)
    (hsent : isSentinel ci = false)
    (himg : truthyS (pyOr ci.photo_path ci.image_file) = true)
    (hurl : ci.profile_url = some u)
    (hu0 : u ≠ "")
    (hstate : ∀ (k : Nat) (ck : Candidate), st.1.candidates[k]? = some ck →
      ck.profile_url = some u → ck = ci)
    (hl : ∀ c ∈ l, c ≠ ci → c.profile_url ≠ some u)
    (hmem : ci ∈ l) :
    (l.foldl (popStep scorer src) st).1.candidates[i]? =
        some { ci with face := some (fmOfResult
          (scorer src ((pyOr ci.photo_path ci.image_file).getD ""))) } ∧
      ci ∈ (l.foldl (popStep scorer src) st).2 := by
  induction l generalizing st with
  | nil => cases hmem
  | cons c l ih =>
    rw [List.foldl_cons]
    by_cases hcc : c = ci
    · subst hcc
      have hhf : candidate_has_face st.1 (c.profile_url.getD "") = false := by
        rw [hurl]
        have hgd : (Option.getD (some u) "") = u := rfl
        rw [hgd]
        cases hx : candidate_has_face st.1 u with
        | false => rfl
        | true =>
          exfalso
          unfold candidate_has_face at hx
          rw [List.any_eq_true] at hx
          obtain ⟨d, hdmem, hdp⟩ := hx
          rw [Bool.and_eq_true] at hdp
          obtain ⟨k, hk⟩ := List.getElem?_of_mem hdmem
          have hdci : d = c :=
            hstate k d hk (by simpa using hdp.1)
          rw [hdci, hface] at hdp
          simp at hdp
      rcases popStep_cases scorer src st c with ⟨heq, hreason⟩ |
        ⟨_, _, _, _, heq⟩
      · exfalso
        rcases hreason with h | h | h | h
        · rw [h] at hsent; simp at hsent
        · rw [h] at himg; simp at himg
        · rw [hurl] at h; simp [truthyS, hu0] at h
        · rw [h] at hhf; simp at hhf
      · rw [heq]
        have hc2 : (set_candidate_face st.1 (c.profile_url.getD "")
            (fmOfResult (scorer src
              ((pyOr c.photo_path c.image_file).getD "")))).candidates[i]? =
            some { c with face := some (fmOfResult (scorer src
              ((pyOr c.photo_path c.image_file).getD ""))) } := by
          rw [set_candidate_face_getElem, hc]
          have hbeq : (c.profile_url == some (c.profile_url.getD "")) =
              true := by
            rw [hurl]
            simp
          simp [hbeq]
          intro h'
          exact absurd (by simpa using hbeq) h'
        exact ⟨fold_faced_state scorer src l _ i _ hc2 rfl,
          fold_calls_mono scorer src l _ c (by simp)⟩
    · have hltail : ∀ c' ∈ l, c' ≠ ci → c'.profile_url ≠ some u :=
        fun c' h' => hl c' (List.mem_cons_of_mem _ h')
      have hmem' : ci ∈ l := by
        rcases List.mem_cons.mp hmem with h | h
        · exact absurd h.symm hcc
        · exact h
      rcases popStep_cases scorer src st c with ⟨heq, _⟩ |
        ⟨_, _, ht2, _, heq⟩
      · rw [heq]; exact ih st hc hstate hltail hmem'
      · rw [heq]
        have hne := hl c (List.mem_cons_self _ _) hcc
        have hb : (ci.profile_url == some (c.profile_url.getD "")) = false :=
          beq_url_false ci c u hurl ht2 hne
        refine ih _ ?_ ?_ hltail hmem'
        · rw [set_candidate_face_getElem, hc]
          simp [hb]
          intro h'
          rw [h'] at hb
          simp at hb
        · intro k ck' hk hku
          rw [set_candidate_face_getElem] at hk
          cases hst : st.1.candidates[k]? with
          | none => rw [hst] at hk; cases hk
          | some ck =>
            rw [hst] at hk
            have hk2 : some (if ck.profile_url ==
                some (c.profile_url.getD "") then
                { ck with face := some (fmOfResult (scorer src
                  ((pyOr c.photo_path c.image_file).getD ""))) }
                else ck) = some ck' := hk
            have hgg : ck' = if ck.profile_url ==
                some (c.profile_url.getD "") then
                { ck with face := some (fmOfResult (scorer src
                  ((pyOr c.photo_path c.image_file).getD ""))) }
                else ck := (Option.some.inj hk2).symm
            have hurlp : ck'.profile_url = ck.profile_url := by
              rw [hgg]
              split <;> rfl
            have hcku : ck.profile_url = some u := by
              rw [← hurlp]
              exact hku
            have hckci : ck = ci := hstate k ck hst hcku
            rw [hgg, hckci, hb]
            simp

/-- C3: for every eligible candidate the Populator invokes the scorer once
and stores exactly `fmOfResult` of its outcome as that candidate's face
metrics; in particular a raised failure is converted to the stored marker
`{error: "no_face_metrics"}` and is never propagated — the loop is total and
processes every other candidate the same way regardless of the failure.
Assumes the spec's §3 unique-URL invariant. -/
theorem populator_error_isolation (scorer : Scorer) (src : String)
    (p : Person) (hu : urlsOK p.candidates = true) (i : Nat) (ci : Candidate)
    (hc : p.candidates[i]? = some ci)
    (hsent : isSentinel ci = false)
    (himg : truthyS (pyOr ci.photo_path ci.image_file) = true)
    (hurlt : truthyS ci.profile_url = true)
    (hface : ci.face = none) :
    ((compute_missing_face_metrics scorer src p).1.candidates[i]? =
        some { ci with face := some (fmOfResult
          (scorer src ((pyOr ci.photo_path ci.image_file).getD ""))) } ∧
      ci ∈ (compute_missing_face_metrics scorer src p).2) ∧
    ∀ e, scorer src ((pyOr ci.photo_path ci.image_file).getD "") =
        Except.error e →
      (compute_missing_face_metrics scorer src p).1.candidates[i]? =
        some { ci with face := some NO_FACE_ERR } := by
  obtain ⟨u, hurl, hu0⟩ : ∃ u, ci.profile_url = some u ∧ u ≠ "" := by
    cases hcu : ci.profile_url with
    | none => rw [hcu] at hurlt; simp [truthyS] at hurlt
    | some v =>
      rw [hcu] at hurlt
      simp only [truthyS, Bool.not_eq_eq_eq_not, Bool.not_true,
        beq_eq_false_iff_ne, ne_eq] at hurlt
      exact ⟨v, rfl, by simpa [truthyS] using hurlt⟩
  have hstate : ∀ (k : Nat) (ck : Candidate), p.candidates[k]? = some ck →
      ck.profile_url = some u → ck = ci := by
    intro k ck hk hku
    by_contra hne
    exact urlsOK_unique p.candidates hu i ci hc ck (List.getElem?_mem hk)
      hne u hurl hku
  have hl : ∀ c ∈ p.candidates, c ≠ ci → c.profile_url ≠ some u :=
    fun c hcm hne => urlsOK_unique p.candidates hu i ci hc c hcm hne u hurl
  have hmain := fold_eligible scorer src p.candidates (p, []) i ci u hc hface
    hsent himg hurl hu0 hstate hl (List.getElem?_mem hc)
  refine ⟨hmain, ?_⟩
  intro e he
  have hres := hmain.1
  rw [he] at hres
  exact hres

/-- Witness for C3: a failing scorer on a record with one eligible candidate
stores the `no_face_metrics` error marker for it, after invoking the scorer
for it, and the run returns normally. -/
theorem populator_error_isolation_witness :
    ((compute_missing_face_metrics (fun _ _ => .error ()) "s"
          wPersonC3).1.candidates[0]? =
        some ⟨some "u", some "n", some "p.jpg", none, some NO_FACE_ERR⟩ ∧
      (⟨some "u", some "n", some "p.jpg", none, none⟩ : Candidate) ∈
        (compute_missing_face_metrics (fun _ _ => .error ()) "s"
          wPersonC3).2) :=
  (populator_error_isolation (fun _ _ => .error ()) "s" wPersonC3 (by decide)
    0 ⟨some "u", some "n", some "p.jpg", none, none⟩ (by decide) (by decide)
    (by decide) (by decide) rfl).1

